import Mathlib

/-!
Verification of the MWAAI messaging-bot backend: a shallow embedding of the
task scheduler (src/schedule_tasks.py), the dialogue orchestrator
(src/prompt_ai.py) and the vector-store tool (src/pinecone_database.py),
with theorems settling the specification claims about them.

Conventions of the embedding:
- Python `datetime` instants are modelled as microseconds since
  1970-01-01T00:00:00 UTC, as an `Int`.  The civil-calendar conversions are
  the standard proleptic-Gregorian day arithmetic.
- `datetime.fromisoformat` is modelled for the extended ISO-8601 format the
  program exchanges (date, optional separator plus clock with optional
  seconds and fractional seconds, optional Z or signed hh or hh:mm offset);
  a string outside the modelled subset parses to `none`, which on every
  code path of the program coincides with Python raising ValueError.
- File-backed state (the task list, the conversation list) is passed
  explicitly; external effects (the channel send, the model completion,
  the vector store) are oracles passed as arguments.
-/

namespace MWAAI

/-- True for a leap year of the proleptic Gregorian calendar. -/
def isLeapYear (y : Nat) : Bool :=
  y % 4 == 0 && (y % 100 != 0 || y % 400 == 0)

/-- Number of days of month `m` of year `y` (months numbered 1..12). -/
def daysInMonth (y m : Nat) : Nat :=
  if m == 2 then (if isLeapYear y then 29 else 28)
  else if m == 4 || m == 6 || m == 9 || m == 11 then 30
  else 31

/-- Days from 1970-01-01 to civil date y-m-d (proleptic Gregorian). -/
def daysFromCivil (y m d : Int) : Int :=
  let y := if m ≤ 2 then y - 1 else y
  let era := (if 0 ≤ y then y else y - 399) / 400
  let yoe := y - era * 400
  let doy := (153 * (if 2 < m then m - 3 else m + 9) + 2) / 5 + d - 1
  let doe := yoe * 365 + yoe / 4 - yoe / 100 + doy
  era * 146097 + doe - 719468

/-- Civil date (y, m, d) of the day `z` days after 1970-01-01. -/
def civilFromDays (z0 : Int) : Int × Int × Int :=
  let z := z0 + 719468
  let era := (if 0 ≤ z then z else z - 146096) / 146097
  let doe := z - era * 146097
  let yoe := (doe - doe / 1460 + doe / 36524 - doe / 146096) / 365
  let y := yoe + era * 400
  let doy := doe - (365 * yoe + yoe / 4 - yoe / 100)
  let mp := (5 * doy + 2) / 153
  let d := doy - (153 * mp + 2) / 5 + 1
  let m := if mp < 10 then mp + 3 else mp - 9
  (if m ≤ 2 then y + 1 else y, m, d)

/-- Microseconds of `datetime.min` (0001-01-01T00:00:00). -/
def minMicros : Int := daysFromCivil 1 1 1 * 86400000000

/-- Microseconds of `datetime.max` (9999-12-31T23:59:59.999999). -/
def maxMicros : Int := daysFromCivil 9999 12 31 * 86400000000 + 86399999999

/-- Value of a nonempty all-digit character list, else `none`. -/
def digitsToNat (cs : List Char) : Option Nat :=
  if cs ≠ [] ∧ cs.all Char.isDigit then
    some (cs.foldl (fun a c => a * 10 + (c.toNat - 48)) 0)
  else none

/-- Result of `datetime.fromisoformat`: the wall-clock instant in
microseconds since the 1970 epoch, and the parsed UTC offset in
microseconds when the string carried one (`tzinfo` aware vs naive). -/
structure ParsedDT where
  micros : Int
  tzOffsetMicros : Option Int
deriving DecidableEq, Repr

/-- Clock part hh, hh:mm, hh:mm:ss or hh:mm:ss.frac as microseconds into
the day, validating field ranges as `fromisoformat` does. -/
def parseClock (cs : List Char) : Option Int :=
  match cs with
  | [h1, h2] =>
    match digitsToNat [h1, h2] with
    | some hh => if hh ≤ 23 then some ((hh : Int) * 3600000000) else none
    | none => none
  | h1 :: h2 :: ':' :: m1 :: m2 :: rest =>
    match digitsToNat [h1, h2], digitsToNat [m1, m2] with
    | some hh, some mm =>
      if hh ≤ 23 ∧ mm ≤ 59 then
        let base := (hh : Int) * 3600000000 + (mm : Int) * 60000000
        match rest with
        | [] => some base
        | ':' :: s1 :: s2 :: rest2 =>
          match digitsToNat [s1, s2] with
          | some ss =>
            if ss ≤ 59 then
              let base2 := base + (ss : Int) * 1000000
              match rest2 with
              | [] => some base2
              | '.' :: frac =>
                match digitsToNat frac with
                | some v =>
                  if frac.length ≠ 0 ∧ frac.length ≤ 6 then
                    some (base2 + (v : Int) * (10 ^ (6 - frac.length) : Nat))
                  else none
                | none => none
              | ',' :: frac =>
                match digitsToNat frac with
                | some v =>
                  if frac.length ≠ 0 ∧ frac.length ≤ 6 then
                    some (base2 + (v : Int) * (10 ^ (6 - frac.length) : Nat))
                  else none
                | none => none
              | _ => none
            else none
          | none => none
        | _ => none
      else none
    | _, _ => none
  | _ => none

/-- Timezone suffix of an ISO string: empty (naive), Z, or a signed hh or
hh:mm offset smaller than 24 hours, as microseconds. -/
def parseTZ (cs : List Char) : Option (Option Int) :=
  match cs with
  | [] => some none
  | ['Z'] => some (some 0)
  | ['z'] => some (some 0)
  | sign :: rest =>
    if sign = '+' ∨ sign = '-' then
      let val : Option Int :=
        match rest with
        | [h1, h2] =>
          match digitsToNat [h1, h2] with
          | some hh => if hh ≤ 23 then some ((hh : Int) * 3600000000) else none
          | none => none
        | [h1, h2, ':', m1, m2] =>
          match digitsToNat [h1, h2], digitsToNat [m1, m2] with
          | some hh, some mm =>
            if hh ≤ 23 ∧ mm ≤ 59 then
              some ((hh : Int) * 3600000000 + (mm : Int) * 60000000)
            else none
          | _, _ => none
        | _ => none
      match val with
      | some v => some (some (if sign = '-' then -v else v))
      | none => none
    else none

/-- Model of `datetime.fromisoformat` on the extended format subset:
YYYY-MM-DD, then optionally one separator character followed by a clock
and an optional timezone suffix.  Field values are validated as Python
does (year 1..9999, real month and day, clock ranges). -/
def fromisoformat (s : String) : Option ParsedDT :=
  match s.data with
  | y1 :: y2 :: y3 :: y4 :: '-' :: m1 :: m2 :: '-' :: d1 :: d2 :: rest =>
    match digitsToNat [y1, y2, y3, y4], digitsToNat [m1, m2], digitsToNat [d1, d2] with
    | some y, some mo, some d =>
      if y = 0 ∨ mo = 0 ∨ 12 < mo ∨ d = 0 ∨ daysInMonth y mo < d then none
      else
        let dateMicros := daysFromCivil (y : Int) (mo : Int) (d : Int) * 86400000000
        match rest with
        | [] => some ⟨dateMicros, none⟩
        | _sep :: timePart =>
          let clockTz := timePart.span fun c => c ≠ '+' ∧ c ≠ '-' ∧ c ≠ 'Z' ∧ c ≠ 'z'
          match parseClock clockTz.1, parseTZ clockTz.2 with
          | some clock, some off => some ⟨dateMicros + clock, off⟩
          | _, _ => none
    | _, _, _ => none
  | _ => none

/-- Normalization of a parsed datetime to a UTC instant: a naive value is
taken as already UTC (`replace(tzinfo=utc)`), an aware value is shifted by
its offset (`astimezone(utc)`); `none` models the OverflowError Python
raises when the shifted instant leaves the representable range. -/
def normalizeUTC (p : ParsedDT) : Option Int :=
  match p.tzOffsetMicros with
  | none => some p.micros
  | some off =>
    let u := p.micros - off
    if u < minMicros ∨ maxMicros < u then none else some u

/-- Decimal rendering of `n` left-padded with zeros to `width`. -/
def padNum (width : Nat) (n : Int) : String :=
  let s := toString n.toNat
  String.mk (List.replicate (width - s.length) '0') ++ s

/-- Model of `datetime.isoformat()` on an aware UTC instant: the date and
clock, the fractional part only when the microseconds are nonzero, and the
+00:00 offset suffix. -/
def isoformat (t : Int) : String :=
  let day := t.ediv 86400000000
  let rem := t.emod 86400000000
  let ymd := civilFromDays day
  let secs := rem.ediv 1000000
  let us := rem.emod 1000000
  let frac := if us = 0 then "" else "." ++ padNum 6 us
  padNum 4 ymd.1 ++ "-" ++ padNum 2 ymd.2.1 ++ "-" ++ padNum 2 ymd.2.2 ++ "T" ++
    padNum 2 (secs.ediv 3600) ++ ":" ++ padNum 2 ((secs.emod 3600).ediv 60) ++ ":" ++
    padNum 2 (secs.emod 60) ++ frac ++ "+00:00"

/-- Model of Python str.strip(): drop whitespace at both ends. -/
def pyStrip (s : String) : String :=
  String.mk (((s.data.dropWhile Char.isWhitespace).reverse.dropWhile Char.isWhitespace).reverse)

/-- Model of Python str.lower() for the ASCII letters. -/
def pyLower (s : String) : String := String.mk (s.data.map Char.toLower)

/-- Model of Python `int(str)` for an optionally signed decimal numeral
surrounded by optional whitespace (underscore grouping is not modelled). -/
def pyIntChars (cs0 : List Char) : Option Int :=
  let cs := ((cs0.dropWhile Char.isWhitespace).reverse.dropWhile Char.isWhitespace).reverse
  match cs with
  | '+' :: rest => (digitsToNat rest).map fun n => (n : Int)
  | '-' :: rest => (digitsToNat rest).map fun n => -(n : Int)
  | rest => (digitsToNat rest).map fun n => (n : Int)

/-! ## Task store (src/schedule_tasks.py) -/

/-- A scheduled delivery as persisted in tasks.json.  `time` is `none`
when the record lacks the key (`task[ "time" ]` then raises KeyError,
which `parse_time` turns into the minimum timestamp). -/
structure Task where
  message : String
  time : Option String
  toNumber : String
  phone_number_id : String
deriving DecidableEq, Repr

/-- Model of `parse_time` (src/schedule_tasks.py lines 16-36): parse the
task time and convert it to UTC; any failure (missing key, unparsable
string, overflow while converting an aware value) yields `datetime.min`
in UTC, here `minMicros`. -/
def parse_time (task : Task) : Int :=
  match task.time with
  | none => minMicros
  | some s =>
    match fromisoformat s with
    | none => minMicros
    | some p =>
      match normalizeUTC p with
      | none => minMicros
      | some u => u

/-- Model of the offset validation of `add_task_exact_time`
(src/schedule_tasks.py lines 59-68): the string must start with UTC after
uppercasing, the remainder (taken from the original string, defaulting to
0 when empty) must parse as a Python int, and the value must lie in
[-11, 14].  `none` stands for the ValueError raised otherwise. -/
def parseOffsetHours (offset : String) : Option Int :=
  match offset.data with
  | c1 :: c2 :: c3 :: rest =>
    if c1.toUpper = 'U' ∧ c2.toUpper = 'T' ∧ c3.toUpper = 'C' then
      let remCs := if rest = [] then ['0'] else rest
      match pyIntChars remCs with
      | none => none
      | some h => if h < -11 ∨ 14 < h then none else some h
    else none
  | _ => none

/-- Model of `add_task_exact_time` (src/schedule_tasks.py lines 38-91):
parse `time_str` as UTC, validate the offset, shift the instant by the
offset hours, and append the new task to the store.  `none` models a
raised ValueError or OverflowError (unparsable time, bad offset, or the
shifted instant leaving the representable range). -/
def add_task_exact_time (message time_str toNumber phone_number_id offset : String)
    (tasks : List Task) : Option (Task × List Task) :=
  match fromisoformat time_str with
  | none => none
  | some p =>
    match normalizeUTC p with
    | none => none
    | some dt =>
      match parseOffsetHours offset with
      | none => none
      | some h =>
        let d := dt - h * 3600000000
        if d < minMicros ∨ maxMicros < d then none
        else
          let task : Task := ⟨message, some (isoformat d), toNumber, phone_number_id⟩
          some (task, tasks ++ [task])

/-- Model of `add_task_relative_time` (src/schedule_tasks.py lines
93-134): parse `time_str` as UTC and append the new task unchanged. -/
def add_task_relative_time (message time_str toNumber phone_number_id : String)
    (tasks : List Task) : Option (Task × List Task) :=
  match fromisoformat time_str with
  | none => none
  | some p =>
    match normalizeUTC p with
    | none => none
    | some dt =>
      let task : Task := ⟨message, some (isoformat dt), toNumber, phone_number_id⟩
      some (task, tasks ++ [task])

/-- Model of `get_oldest_task` (src/schedule_tasks.py lines 149-163):
`min(tasks, key=parse_time)` keeps the first element of minimal key and
returns `None` on an empty store. -/
def get_oldest_task (tasks : List Task) : Option Task :=
  match tasks with
  | [] => none
  | t :: ts => some (ts.foldl (fun acc u => if parse_time u < parse_time acc then u else acc) t)

/-- A delivery attempt of one scheduler cycle: the task sent and the
outcome the channel reported. -/
structure DeliveryAttempt where
  task : Task
  sent : Bool
deriving DecidableEq, Repr

/-- Model of one iteration of the scheduler polling loop
(src/schedule_tasks.py lines 173-209): read the oldest task; when its
normalized time is not after `now`, attempt the channel send (only when
the token and the routing fields are present, Python truthiness) and
remove the task from the store regardless of the outcome.  The result is
the new store and the delivery attempt, if one was made; `sendOk` is the
outcome the channel-send capability reports. -/
def scheduler_step (now : Int) (tokenPresent sendOk : Bool) (tasks : List Task) :
    List Task × Option DeliveryAttempt :=
  match get_oldest_task tasks with
  | none => (tasks, none)
  | some t =>
    if parse_time t ≤ now then
      let attempt := tokenPresent && !(t.phone_number_id == "") && !(t.toNumber == "")
      (tasks.erase t, if attempt then some ⟨t, sendOk⟩ else none)
    else (tasks, none)

/-! ## Dialogue orchestrator (src/prompt_ai.py) -/

/-- The serialized-size bound on the conversation file, `max_size`
(src/prompt_ai.py line 77). -/
def maxSize : Nat := 1572864

/-- The fixed reply used when a model response carries neither text nor
tool calls (src/prompt_ai.py line 287). -/
def fallbackText : String := "Sorry, I didn\x27t get a response from the assistant."

/-- The fixed confirmation returned by the reset command
(src/prompt_ai.py line 61). -/
def resetConfirmation : String := "Conversation history has been reset."

/-- A function tool call as the completion capability reports it. -/
structure ToolCall where
  id : String
  call_id : String
  name : String
  arguments : String
deriving DecidableEq, Repr

/-- One content part of an assistant message item: text parts (types
text and output_text) or a nested function call; `otherPart` stands for
any part of another type, which the loop ignores. -/
inductive OutputPart where
  | textPart (text : String)
  | outputText (text : String)
  | functionCallPart (c : ToolCall)
  | otherPart
deriving DecidableEq, Repr

/-- One item of a model response output: a direct function-call item, a
message item with content parts, or an item of another type, which the
loop ignores. -/
inductive OutputItem where
  | functionCallItem (c : ToolCall)
  | message (content : List OutputPart)
  | otherItem
deriving DecidableEq, Repr

/-- Function calls of a message item's parts, in order. -/
def partCalls : List OutputPart → List ToolCall
  | [] => []
  | .functionCallPart c :: ps => c :: partCalls ps
  | _ :: ps => partCalls ps

/-- Text chunks of a message item's parts, in order. -/
def partTexts : List OutputPart → List String
  | [] => []
  | .textPart t :: ps => t :: partTexts ps
  | .outputText t :: ps => t :: partTexts ps
  | _ :: ps => partTexts ps

/-- The function calls collected from a response output
(src/prompt_ai.py lines 232-247): direct function-call items and
function-call parts nested in message items. -/
def collectCalls : List OutputItem → List ToolCall
  | [] => []
  | .functionCallItem c :: items => c :: collectCalls items
  | .message ps :: items => partCalls ps ++ collectCalls items
  | .otherItem :: items => collectCalls items

/-- The text chunks collected from a response output (src/prompt_ai.py
lines 232-247); a direct function-call item contributes none. -/
def collectTexts : List OutputItem → List String
  | [] => []
  | .functionCallItem _ :: items => collectTexts items
  | .message ps :: items => partTexts ps ++ collectTexts items
  | .otherItem :: items => collectTexts items

/-- One entry of the persisted conversation: its role key, when the dict
has one, and the rest of the dict summarized as a payload string.  The
dicts the orchestrator itself appends are built by the constructors
below; the claims depend only on the role tag and on turn identity. -/
structure Turn where
  role : Option String
  payload : String
deriving DecidableEq, Repr

/-- The synthesized system turn (src/prompt_ai.py lines 26-54).  The
prompt wording is out of the specification's scope; only the role tag
matters to the claims. -/
def systemTurn : Turn := ⟨some "system", "system prompt"⟩

/-- The user turn appended per inbound message (src/prompt_ai.py line
90); `rendered` is the str() rendering of the user input dict. -/
def userTurn (rendered : String) : Turn := ⟨some "user", "user input: " ++ rendered⟩

/-- The assistant turn appended when a final reply exists
(src/prompt_ai.py line 294). -/
def assistantTurn (text : String) : Turn := ⟨some "assistant", text⟩

/-- The function_call turn appended per executed tool call
(src/prompt_ai.py lines 263-269); the dict has no role key. -/
def functionCallTurn (c : ToolCall) : Turn :=
  ⟨none, "function_call " ++ c.id ++ " " ++ c.call_id ++ " " ++ c.name ++ " " ++ c.arguments⟩

/-- The function_call_output turn appended per tool result
(src/prompt_ai.py lines 272-276); the dict has no role key. -/
def functionOutputTurn (call_id output : String) : Turn :=
  ⟨none, "function_call_output " ++ call_id ++ " " ++ output⟩

/-- The guard of the system-turn synthesis (src/prompt_ai.py line 72):
true when the loaded history is empty or its first entry's role is not
system (a missing role key compares unequal to system). -/
def needsSystem (history : List Turn) : Bool :=
  match history with
  | [] => true
  | t :: _ => !(t.role == some "system")

/-- Body of the size-bound eviction loop over the entries after index 0:
deleting index 1 of the whole history deletes the head of this tail, and
the loop repeats while the tail is nonempty (`len(history) > 1`) and the
file size exceeds `maxSize`. -/
def evictTail (fileSize : Nat) : List Turn → List Turn
  | [] => []
  | t :: rest =>
    if maxSize < fileSize then evictTail fileSize rest else t :: rest

/-- Model of the size-bound eviction loop (src/prompt_ai.py lines
84-88): while the history has more than one entry and the conversation
file's size exceeds `maxSize`, delete the entry at index 1.  The loop
body never rewrites the file, so every `get_file_size` call inside the
loop condition returns the same number, passed here as `fileSize`; the
entry at index 0 is never touched. -/
def evict (fileSize : Nat) : List Turn → List Turn
  | [] => []
  | h :: t => h :: evictTail fileSize t

/-- Turns appended for one batch of executed tool calls
(src/prompt_ai.py lines 251-276): per call, its function_call turn and
the function_call_output turn holding the dispatched result, which the
oracle `toolOut` supplies (it stands for `_dispatch_tool` plus the
json.dumps of a non-string result). -/
def appendCallTurns (toolOut : ToolCall → String) (history : List Turn)
    (calls : List ToolCall) : List Turn :=
  calls.foldl (fun h c => h ++ [functionCallTurn c, functionOutputTurn c.call_id (toolOut c)]) history

/-- Model of the iterative function-calling loop (src/prompt_ai.py lines
218-288): up to `fuel` completion requests (5 at the call site); a
response with tool calls executes them, appends call and result turns
and loops; otherwise nonempty text ends the loop with the joined,
stripped text, and a response with neither ends it with the fallback.
`resps` is the completion oracle, indexed by request number `i`.  The
result is the reply text (empty when the cap is exhausted), the final
history and the number of completion requests made. -/
def toolLoop (resps : Nat → List OutputItem) (toolOut : Nat → ToolCall → String) :
    Nat → Nat → List Turn → String × List Turn × Nat
  | _, 0, history => ("", history, 0)
  | i, fuel + 1, history =>
    let calls := collectCalls (resps i)
    let texts := collectTexts (resps i)
    if calls.isEmpty then
      if texts.isEmpty then (fallbackText, history, 1)
      else (pyStrip (String.join texts), history, 1)
    else
      let r := toolLoop resps toolOut (i + 1) fuel (appendCallTurns (toolOut i) history calls)
      (r.1, r.2.1, r.2.2 + 1)

/-- The history argument passed to each completion request the loop
makes, in request order: every iteration of the loop sends the full
accumulated history; an iteration whose response carries tool calls is
followed by further requests over the extended history.  This observer
mirrors the recursion of `toolLoop` and exists to state the system-turn
invariant at every model call. -/
def toolLoopHistories (resps : Nat → List OutputItem) (toolOut : Nat → ToolCall → String) :
    Nat → Nat → List Turn → List (List Turn)
  | _, 0, _ => []
  | i, fuel + 1, history =>
    if (collectCalls (resps i)).isEmpty then [history]
    else history :: toolLoopHistories resps toolOut (i + 1) fuel
      (appendCallTurns (toolOut i) history (collectCalls (resps i)))

/-- The inbound message as `prompt_openai_response` receives it:
whether it is a dict, its text field (`none` when the key is absent,
read through `.get("text", "")`), and its str() rendering. -/
structure UserInput where
  isDict : Bool
  text : Option String
  rendered : String
deriving Repr

/-- The observable outcome of one `prompt_openai_response` call: the
returned reply, whether the conversation file was deleted, the number of
completion requests made, the history written by the mid-call eviction
rewrite when one happened (src/prompt_ai.py lines 87-88), and the
history written by the final persist (lines 296-298), absent on the
reset path. -/
structure PromptOutcome where
  reply : String
  deletedConvo : Bool
  modelCalls : Nat
  trimPersist : Option (List Turn)
  persisted : Option (List Turn)
deriving Repr

/-- The history preparation of `prompt_openai_response` (src/prompt_ai.py
lines 65-88): prepend the system turn when the loaded history does not
start with one, and run the size-bound eviction when the conversation
file exists and exceeds `maxSize`.  The result is the prepared history
and, when the eviction ran, the history it rewrote to disk. -/
def prepareHistory (fileExists : Bool) (fileSize : Nat) (loaded : List Turn) :
    List Turn × Option (List Turn) :=
  let history := if needsSystem loaded then systemTurn :: loaded else loaded
  let doTrim := fileExists && decide (maxSize < fileSize)
  let history2 := if doTrim then evict fileSize history else history
  (history2, if doTrim then some history2 else none)

/-- Model of `prompt_openai_response` (src/prompt_ai.py lines 12-301).
`fileExists` and `fileSize` describe the conversation file on disk,
`loaded` the history parsed from it (empty when absent or corrupt),
`resps` and `toolOut` the completion and tool-dispatch oracles. -/
def prompt_openai_response (input : UserInput) (fileExists : Bool) (fileSize : Nat)
    (loaded : List Turn) (resps : Nat → List OutputItem)
    (toolOut : Nat → ToolCall → String) : PromptOutcome :=
  if input.isDict && (pyLower (pyStrip (input.text.getD "")) == "forget") then
    ⟨resetConfirmation, fileExists, 0, none, none⟩
  else
    let pr := prepareHistory fileExists fileSize loaded
    let history3 := pr.1 ++ [userTurn input.rendered]
    let r := toolLoop resps toolOut 0 5 history3
    let final := if r.1 == "" then r.2.1 else r.2.1 ++ [assistantTurn r.1]
    ⟨r.1, false, r.2.2, pr.2, some final⟩

/-! ## Vector-store tool (src/pinecone_database.py) -/

/-- Minimum score for a search hit to be kept (SIMILARITY_THRESHOLD,
src/pinecone_database.py line 15); the float is modelled as a rational. -/
def SIMILARITY_THRESHOLD : ℚ := 1 / 100

/-- One hit of the similarity search: its fields dict and its score. -/
structure Hit where
  fields : List (String × String)
  score : ℚ
deriving DecidableEq, Repr

/-- The outcome of the external upsert-and-search: `ok := false` models
an exception raised by either Pinecone call, otherwise `hits` is the
search response's hit list. -/
structure SearchOutcome where
  ok : Bool
  hits : List Hit
deriving Repr

/-- The input object of `use_pinecone`: either a dict, given as its
key-value list, or a value of another type. -/
inductive PyObj where
  | dict (fields : List (String × String))
  | notDict
deriving DecidableEq, Repr

/-- Model of `use_pinecone` (src/pinecone_database.py lines 18-77): an
input that is no dict or lacks the text key returns Python None (here
`none`); otherwise the record is upserted and the similar hits whose
score reaches the threshold are returned, an external failure yielding
the empty list.  `search` is the external-store oracle. -/
def use_pinecone (search : SearchOutcome) (input_obj : PyObj) (toNumber : String) :
    Option (List (List (String × String))) :=
  match input_obj with
  | .notDict => none
  | .dict fields =>
    if (fields.lookup "text").isNone then none
    else
      let _ns := if toNumber == "" then "__default__" else toNumber
      if search.ok then
        some (((search.hits.filter fun h => SIMILARITY_THRESHOLD ≤ h.score).map Hit.fields))
      else some []

/-! ## Helper lemmas -/

/-- The fold of `get_oldest_task` returns an element of `acc :: ts` whose
`parse_time` is a lower bound of the keys of `acc` and of `ts`. -/
theorem foldlMin_spec (ts : List Task) : ∀ acc : Task,
    (ts.foldl (fun a u => if parse_time u < parse_time a then u else a) acc = acc ∨
      ts.foldl (fun a u => if parse_time u < parse_time a then u else a) acc ∈ ts) ∧
    parse_time (ts.foldl (fun a u => if parse_time u < parse_time a then u else a) acc) ≤
      parse_time acc ∧
    ∀ u ∈ ts, parse_time (ts.foldl (fun a u => if parse_time u < parse_time a then u else a) acc) ≤
      parse_time u := by
  induction ts with
  | nil => intro acc; exact ⟨Or.inl rfl, le_refl _, by simp⟩
  | cons a ts ih =>
    intro acc
    simp only [List.foldl_cons]
    by_cases h : parse_time a < parse_time acc
    · rw [if_pos h]
      obtain ⟨hmem, hle, hall⟩ := ih a
      refine ⟨?_, le_trans hle (le_of_lt h), ?_⟩
      · rcases hmem with h1 | h1
        · exact Or.inr (by rw [h1]; exact List.mem_cons_self a ts)
        · exact Or.inr (List.mem_cons_of_mem _ h1)
      · intro u hu
        rcases List.mem_cons.mp hu with rfl | hu
        · exact hle
        · exact hall u hu
    · rw [if_neg h]
      obtain ⟨hmem, hle, hall⟩ := ih acc
      push_neg at h
      refine ⟨?_, hle, ?_⟩
      · rcases hmem with h1 | h1
        · exact Or.inl h1
        · exact Or.inr (List.mem_cons_of_mem _ h1)
      · intro u hu
        rcases List.mem_cons.mp hu with rfl | hu
        · exact le_trans hle h
        · exact hall u hu

/-- The tool-call batch append only extends the history. -/
theorem appendCallTurns_extends (f : ToolCall → String) :
    ∀ (calls : List ToolCall) (history : List Turn),
      ∃ s, appendCallTurns f history calls = history ++ s := by
  intro calls
  induction calls with
  | nil => intro history; exact ⟨[], (List.append_nil history).symm⟩
  | cons c cs ih =>
    intro history
    obtain ⟨s, hs⟩ := ih (history ++ [functionCallTurn c, functionOutputTurn c.call_id (f c)])
    exact ⟨[functionCallTurn c, functionOutputTurn c.call_id (f c)] ++ s, by
      simpa [appendCallTurns, List.append_assoc] using hs⟩

/-- The function-calling loop only appends to the history it is given. -/
theorem toolLoop_extends (resps : Nat → List OutputItem) (toolOut : Nat → ToolCall → String) :
    ∀ (fuel i : Nat) (history : List Turn),
      ∃ s, (toolLoop resps toolOut i fuel history).2.1 = history ++ s := by
  intro fuel
  induction fuel with
  | zero => intro i history; exact ⟨[], (List.append_nil history).symm⟩
  | succ n ih =>
    intro i history
    simp only [toolLoop]
    by_cases hc : (collectCalls (resps i)).isEmpty
    · by_cases ht : (collectTexts (resps i)).isEmpty
      · exact ⟨[], by simp [hc, ht, List.append_nil]⟩
      · exact ⟨[], by simp [hc, ht, List.append_nil]⟩
    · obtain ⟨s1, hs1⟩ := appendCallTurns_extends (toolOut i) (collectCalls (resps i)) history
      obtain ⟨s2, hs2⟩ := ih (i + 1) (appendCallTurns (toolOut i) history (collectCalls (resps i)))
      refine ⟨s1 ++ s2, ?_⟩
      simp only [Bool.not_eq_true] at hc
      simp only [hc, Bool.false_eq_true, if_false]
      rw [hs1] at hs2 ⊢
      rw [hs2, List.append_assoc]

/-- Every history the loop passes to a completion request keeps the
first entry of the history the loop started from. -/
theorem toolLoopHistories_head (resps : Nat → List OutputItem) (toolOut : Nat → ToolCall → String) :
    ∀ (fuel i : Nat) (t0 : Turn) (tl : List Turn),
      ∀ hist ∈ toolLoopHistories resps toolOut i fuel (t0 :: tl),
        ∃ rest, hist = t0 :: rest := by
  intro fuel
  induction fuel with
  | zero => intro i t0 tl hist hh; simp [toolLoopHistories] at hh
  | succ n ih =>
    intro i t0 tl hist hh
    by_cases hc : (collectCalls (resps i)).isEmpty
    · simp only [toolLoopHistories, hc, if_pos, List.mem_singleton] at hh
      exact ⟨tl, hh⟩
    · simp only [Bool.not_eq_true] at hc
      simp only [toolLoopHistories, hc, Bool.false_eq_true, if_false, List.mem_cons] at hh
      rcases hh with rfl | hh
      · exact ⟨tl, rfl⟩
      · obtain ⟨s1, hs1⟩ := appendCallTurns_extends (toolOut i) (collectCalls (resps i)) (t0 :: tl)
        rw [hs1] at hh
        exact ih (i + 1) t0 (tl ++ s1) hist (by simpa using hh)

/-- When every consulted completion response carries tool calls, the loop
spends all its fuel, makes one request per unit of fuel and ends with the
empty reply. -/
theorem toolLoop_all_calls (resps : Nat → List OutputItem) (toolOut : Nat → ToolCall → String) :
    ∀ (fuel i : Nat) (history : List Turn),
      (∀ j, i ≤ j → j < i + fuel → (collectCalls (resps j)).isEmpty = false) →
      (toolLoop resps toolOut i fuel history).1 = "" ∧
      (toolLoop resps toolOut i fuel history).2.2 = fuel := by
  intro fuel
  induction fuel with
  | zero => intro i history _; exact ⟨rfl, rfl⟩
  | succ n ih =>
    intro i history hall
    have hc := hall i (le_refl i) (by omega)
    have hrec := ih (i + 1) (appendCallTurns (toolOut i) history (collectCalls (resps i)))
      (fun j h1 h2 => hall j (by omega) (by omega))
    simp only [toolLoop, hc]
    exact ⟨hrec.1, by simp [hrec.2]⟩

/-- The prepared history always starts with a turn whose role is system:
either the loaded history already did, or the system turn was prepended;
the eviction preserves the entry at index 0. -/
theorem prepareHistory_fst_head (fe : Bool) (fs : Nat) (loaded : List Turn) :
    ∃ t rest, (prepareHistory fe fs loaded).1 = t :: rest ∧ t.role = some "system" := by
  unfold prepareHistory
  cases hn : needsSystem loaded with
  | true =>
    by_cases hd : (fe && decide (maxSize < fs)) = true
    · exact ⟨systemTurn, evictTail fs loaded, by simp [hd, evict], rfl⟩
    · simp only [Bool.not_eq_true] at hd
      exact ⟨systemTurn, loaded, by simp [hd], rfl⟩
  | false =>
    cases loaded with
    | nil => simp [needsSystem] at hn
    | cons t rest =>
      have hrole : t.role = some "system" := by
        simpa [needsSystem] using hn
      by_cases hd : (fe && decide (maxSize < fs)) = true
      · exact ⟨t, evictTail fs rest, by simp [hd, evict], hrole⟩
      · simp only [Bool.not_eq_true] at hd
        exact ⟨t, rest, by simp [hd], hrole⟩

/-- The mid-call eviction rewrite, when it happens, writes exactly the
prepared history. -/
theorem prepareHistory_snd (fe : Bool) (fs : Nat) (loaded : List Turn) :
    (prepareHistory fe fs loaded).2 = none ∨
    (prepareHistory fe fs loaded).2 = some (prepareHistory fe fs loaded).1 := by
  unfold prepareHistory
  by_cases hd : (fe && decide (maxSize < fs)) = true
  · right; simp [hd]
  · left; simp only [Bool.not_eq_true] at hd; simp [hd]

/-! ## Claim theorems -/

/-- Claim C7: over any task store state, `get_oldest_task` returns none
exactly on the empty store and otherwise a stored task of minimal
normalized UTC due time; a task with a missing or unparsable time
normalizes to the minimum timestamp, and when such a task is stored the
selected task is due at once against any nonnegative clock. -/
theorem C7_oldest_is_minimal (tasks : List Task) :
    (get_oldest_task tasks = none ↔ tasks = []) ∧
    (∀ t, get_oldest_task tasks = some t →
      t ∈ tasks ∧ ∀ u ∈ tasks, parse_time t ≤ parse_time u) ∧
    (∀ t : Task, t.time = none → parse_time t = minMicros) ∧
    (∀ (t : Task) (s : String), t.time = some s → fromisoformat s = none →
      parse_time t = minMicros) ∧
    (∀ t ∈ tasks, parse_time t = minMicros → ∀ t2, get_oldest_task tasks = some t2 →
      ∀ now : Int, 0 ≤ now → parse_time t2 ≤ now) := by
  refine ⟨?_, ?_, ?_, ?_, ?_⟩
  · cases tasks <;> simp [get_oldest_task]
  · intro t ht
    cases tasks with
    | nil => simp [get_oldest_task] at ht
    | cons a ts =>
      simp only [get_oldest_task, Option.some.injEq] at ht
      obtain ⟨hmem, hle, hall⟩ := foldlMin_spec ts a
      subst ht
      constructor
      · rcases hmem with h1 | h1
        · rw [h1]; exact List.mem_cons_self a ts
        · exact List.mem_cons_of_mem _ h1
      · intro u hu
        rcases List.mem_cons.mp hu with rfl | hu
        · exact hle
        · exact hall u hu
  · intro t h; simp [parse_time, h]
  · intro t s h1 h2; simp [parse_time, h1, h2]
  · intro t hmem hmin t2 ht2 now hnow
    cases tasks with
    | nil => simp [get_oldest_task] at ht2
    | cons a ts =>
      simp only [get_oldest_task, Option.some.injEq] at ht2
      obtain ⟨_, hle, hall⟩ := foldlMin_spec ts a
      have hbound : parse_time t2 ≤ parse_time t := by
        rcases List.mem_cons.mp hmem with rfl | hmem
        · exact ht2 ▸ hle
        · exact ht2 ▸ hall t hmem
      have hminle : minMicros ≤ (0 : Int) := by decide
      omega

/-- Claim C3: for any due task processed by a scheduler cycle, the new
store state does not depend on the token, the routing fields or the
channel-send outcome, and when the oldest task is due it is removed
exactly once regardless of the delivery outcome. -/
theorem C3_removal_independent_of_delivery (now : Int) (tasks : List Task) :
    (∀ tok1 sok1 tok2 sok2,
      (scheduler_step now tok1 sok1 tasks).1 = (scheduler_step now tok2 sok2 tasks).1) ∧
    (∀ t, get_oldest_task tasks = some t → parse_time t ≤ now →
      ∀ tok sok, (scheduler_step now tok sok tasks).1 = tasks.erase t) := by
  constructor
  · intro tok1 sok1 tok2 sok2
    unfold scheduler_step
    cases get_oldest_task tasks with
    | none => rfl
    | some t =>
      by_cases h : parse_time t ≤ now
      · simp [h]
      · simp [h]
  · intro t ht hdue tok sok
    unfold scheduler_step
    rw [ht]
    simp [hdue]

/-- Claim C1 (code bug): with a conversation file just over the 1.5MB
bound and a loaded history of the system turn plus two user turns, the
eviction rewrite retains only the system turn — every non-system turn is
evicted because the loop guard re-reads the unchanged on-disk file size,
instead of stopping once the trimmed history fits the bound. -/
theorem C1_oversized_file_evicts_every_nonsystem_turn :
    (prompt_openai_response ⟨true, some "hello", "hello"⟩ true 1572865
        [systemTurn, userTurn "earlier question", userTurn "later question"]
        (fun _ => [.message [.outputText "ok"]]) (fun _ _ => "")).trimPersist =
      some [systemTurn] := by decide

/-- The two tasks of the two-due-tasks scheduler scenario. -/
def taskA : Task := ⟨"a", some "2020-01-01T00:00:00", "111", "222"⟩

/-- The later of the two due tasks of the scheduler scenario. -/
def taskB : Task := ⟨"b", some "2020-01-02T00:00:00", "111", "222"⟩

/-- Claim C4 counterexample: with two past-due tasks in the store, one
poll cycle removes only the oldest; the other past-due task is still in
the store after the cycle, so not every past-due task is delivered and
removed on the next poll cycle. -/
theorem C4_due_task_survives_cycle_cex :
    parse_time taskB ≤ 1751036400000000 ∧
    (scheduler_step 1751036400000000 true true [taskA, taskB]).1 = [taskB] := by decide

/-- Claim C4 (amended): each poll cycle processes at most the single
oldest task: every task with due time after `now` survives the cycle
untouched, and when the oldest task is due it is removed and, with the
token and routing fields present, delivered with the channel outcome. -/
theorem C4_oldest_per_cycle_amended (now : Int) (tasks : List Task) (tok sok : Bool) :
    (∀ t ∈ tasks, now < parse_time t → t ∈ (scheduler_step now tok sok tasks).1) ∧
    (∀ t, get_oldest_task tasks = some t → parse_time t ≤ now →
      (scheduler_step now tok sok tasks).1 = tasks.erase t ∧
      (tok = true → t.phone_number_id ≠ "" → t.toNumber ≠ "" →
        (scheduler_step now tok sok tasks).2 = some ⟨t, sok⟩)) := by
  constructor
  · intro t hmem hfuture
    unfold scheduler_step
    cases ho : get_oldest_task tasks with
    | none => exact hmem
    | some o =>
      by_cases hdue : parse_time o ≤ now
      · simp only [hdue, if_pos]
        have hne : t ≠ o := by
          intro he
          rw [he] at hfuture
          omega
        exact (List.mem_erase_of_ne hne).mpr hmem
      · simp only [hdue, if_false, ite_false]
        exact hmem
  · intro t ht hdue
    unfold scheduler_step
    rw [ht]
    constructor
    · simp [hdue]
    · intro htok hpid hto
      have h1 : (t.phone_number_id == "") = false := by
        simpa using hpid
      have h2 : (t.toNumber == "") = false := by
        simpa using hto
      simp [hdue, htok, h1, h2]

/-- A tool call used by the iteration-cap scenario. -/
def tcScenario : ToolCall := ⟨"id1", "call1", "get_user_timezone", "to_number 111"⟩

/-- Claim C2 counterexample: when all five completion responses carry a
tool call and no final text, the orchestrator makes five requests and
returns the empty string, not the fixed fallback reply. -/
theorem C2_cap_exhaustion_returns_empty_cex :
    (prompt_openai_response ⟨true, some "hi", "hi"⟩ true 100 []
        (fun _ => [.functionCallItem tcScenario]) (fun _ _ => "ok")).reply = "" ∧
    (prompt_openai_response ⟨true, some "hi", "hi"⟩ true 100 []
        (fun _ => [.functionCallItem tcScenario]) (fun _ _ => "ok")).modelCalls = 5 ∧
    "" ≠ fallbackText := by decide

/-- Claim C2 (amended): when the dialogue loop reaches its cap of 5
cycles because every response carried tool calls, the orchestrator
returns the empty string, not the fallback; the fixed fallback reply is
emitted when a response carries neither tool calls nor text. -/
theorem C2_cap_exhaustion_amended (input : UserInput) (fe : Bool) (fs : Nat)
    (loaded : List Turn) (resps : Nat → List OutputItem) (toolOut : Nat → ToolCall → String) :
    ((input.isDict && (pyLower (pyStrip (input.text.getD "")) == "forget")) = false →
      (∀ i, i < 5 → (collectCalls (resps i)).isEmpty = false) →
      (prompt_openai_response input fe fs loaded resps toolOut).reply = "" ∧
      (prompt_openai_response input fe fs loaded resps toolOut).modelCalls = 5) ∧
    ((input.isDict && (pyLower (pyStrip (input.text.getD "")) == "forget")) = false →
      (collectCalls (resps 0)).isEmpty = true →
      (collectTexts (resps 0)).isEmpty = true →
      (prompt_openai_response input fe fs loaded resps toolOut).reply = fallbackText) := by
  constructor
  · intro hforget hcalls
    have h := toolLoop_all_calls resps toolOut 5 0
      ((prepareHistory fe fs loaded).1 ++ [userTurn input.rendered])
      (fun j h1 h2 => hcalls j (by omega))
    simp only [prompt_openai_response, hforget, Bool.false_eq_true, if_false]
    exact ⟨h.1, h.2⟩
  · intro hforget hc ht
    simp only [prompt_openai_response, hforget, Bool.false_eq_true, if_false]
    simp [toolLoop, hc, ht]

/-- Claim C8: the prepared history, the history of every completion
request of the dialogue loop, and every history the orchestrator
persists (the eviction rewrite and the final write) start with a turn
whose role is system: the system turn is synthesized whenever the
loaded history is empty or does not start with one, the size-bound
eviction never removes the entry at index 0, and the loop only
appends. -/
theorem C8_system_turn_first (input : UserInput) (fe : Bool) (fs : Nat)
    (loaded : List Turn) (resps : Nat → List OutputItem) (toolOut : Nat → ToolCall → String) :
    (∃ t rest, (prepareHistory fe fs loaded).1 = t :: rest ∧ t.role = some "system") ∧
    (∀ hist ∈ toolLoopHistories resps toolOut 0 5
        ((prepareHistory fe fs loaded).1 ++ [userTurn input.rendered]),
      ∃ t rest, hist = t :: rest ∧ t.role = some "system") ∧
    (∀ hist, (prompt_openai_response input fe fs loaded resps toolOut).trimPersist = some hist →
      ∃ t rest, hist = t :: rest ∧ t.role = some "system") ∧
    (∀ hist, (prompt_openai_response input fe fs loaded resps toolOut).persisted = some hist →
      ∃ t rest, hist = t :: rest ∧ t.role = some "system") := by
  obtain ⟨t0, rest0, hpre, hrole⟩ := prepareHistory_fst_head fe fs loaded
  refine ⟨⟨t0, rest0, hpre, hrole⟩, ?_, ?_, ?_⟩
  · intro hist hh
    rw [hpre] at hh
    obtain ⟨rest, hr⟩ := toolLoopHistories_head resps toolOut 5 0 t0
      (rest0 ++ [userTurn input.rendered]) hist (by simpa using hh)
    exact ⟨t0, rest, hr, hrole⟩
  · intro hist hh
    by_cases hforget : (input.isDict && (pyLower (pyStrip (input.text.getD "")) == "forget")) = true
    · simp [prompt_openai_response, hforget] at hh
    · simp only [Bool.not_eq_true] at hforget
      simp only [prompt_openai_response, hforget, Bool.false_eq_true, if_false] at hh
      rcases prepareHistory_snd fe fs loaded with hs | hs
      · rw [hs] at hh; exact absurd hh (by simp)
      · rw [hs] at hh
        refine ⟨t0, rest0, ?_, hrole⟩
        rw [← hpre]
        exact (Option.some.injEq _ _ ▸ hh).symm
  · intro hist hh
    by_cases hforget : (input.isDict && (pyLower (pyStrip (input.text.getD "")) == "forget")) = true
    · simp [prompt_openai_response, hforget] at hh
    · simp only [Bool.not_eq_true] at hforget
      simp only [prompt_openai_response, hforget, Bool.false_eq_true, if_false,
        Option.some.injEq] at hh
      obtain ⟨s, hs⟩ := toolLoop_extends resps toolOut 5 0
        ((prepareHistory fe fs loaded).1 ++ [userTurn input.rendered])
      by_cases hr : ((toolLoop resps toolOut 0 5
          ((prepareHistory fe fs loaded).1 ++ [userTurn input.rendered])).1 == "") = true
      · rw [← hh]
        simp only [hr, if_pos]
        refine ⟨t0, rest0 ++ [userTurn input.rendered] ++ s, ?_, hrole⟩
        rw [hs, hpre]
        simp
      · rw [← hh]
        simp only [Bool.not_eq_true] at hr
        simp only [hr, Bool.false_eq_true, if_false]
        refine ⟨t0, rest0 ++ [userTurn input.rendered] ++ s ++
          [assistantTurn (toolLoop resps toolOut 0 5
            ((prepareHistory fe fs loaded).1 ++ [userTurn input.rendered])).1], ?_, hrole⟩
        rw [hs, hpre]
        simp

/-- Claim C9: an inbound dict message whose text strips and lowercases to
exactly forget makes the orchestrator delete the conversation file when
it exists, return the fixed confirmation string, make no completion
request and write nothing back. -/
theorem C9_forget_resets (input : UserInput) (fe : Bool) (fs : Nat) (loaded : List Turn)
    (resps : Nat → List OutputItem) (toolOut : Nat → ToolCall → String)
    (hdict : input.isDict = true)
    (htext : pyLower (pyStrip (input.text.getD "")) = "forget") :
    prompt_openai_response input fe fs loaded resps toolOut =
      ⟨resetConfirmation, fe, 0, none, none⟩ := by
  have hcond : (input.isDict && (pyLower (pyStrip (input.text.getD "")) == "forget")) = true := by
    simp [hdict, htext]
  simp [prompt_openai_response, hcond]

/-- Claim C9 witness: the forget command on a concrete message with an
existing conversation file. -/
theorem C9_forget_resets_witness :
    prompt_openai_response ⟨true, some "  FORGET ", "rendered"⟩ true 4096
        [systemTurn, userTurn "old"] (fun _ => [.message [.outputText "ok"]]) (fun _ _ => "") =
      ⟨resetConfirmation, true, 0, none, none⟩ :=
  C9_forget_resets ⟨true, some "  FORGET ", "rendered"⟩ true 4096
    [systemTurn, userTurn "old"] (fun _ => [.message [.outputText "ok"]]) (fun _ _ => "")
    (by decide) (by decide)

/-- Claim C10: an input object that is not a dict, or a dict without the
text key, makes `use_pinecone` return Python None rather than any hit
list, so a caller of the tool can receive a non-list result. -/
theorem C10_use_pinecone_invalid_input (search : SearchOutcome) (toNumber : String) :
    (use_pinecone search .notDict toNumber = none ∧
      ∀ hits, use_pinecone search .notDict toNumber ≠ some hits) ∧
    (∀ fields, (fields.lookup "text").isNone = true →
      use_pinecone search (.dict fields) toNumber = none ∧
      ∀ hits, use_pinecone search (.dict fields) toNumber ≠ some hits) := by
  refine ⟨⟨rfl, ?_⟩, ?_⟩
  · intro hits h
    simp [use_pinecone] at h
  · intro fields hkey
    refine ⟨?_, ?_⟩
    · simp [use_pinecone, hkey]
    · intro hits h
      simp [use_pinecone, hkey] at h

/-- Modelled from the spec words, for comparison with the code: an
offset string matching the pattern UTC±H with H in [-11, 14] — the
literal letters UTC, a sign, and a decimal numeral bounded so the signed
value lies in the range. -/
def specOffsetFormat (s : String) : Bool :=
  match s.data with
  | c1 :: c2 :: c3 :: sign :: ds =>
    c1 == 'U' && c2 == 'T' && c3 == 'C' &&
    (sign == '+' || sign == '-') && !ds.isEmpty && ds.all Char.isDigit &&
    (match digitsToNat ds with
     | some n => if sign == '-' then decide (n ≤ 11) else decide (n ≤ 14)
     | none => false)
  | _ => false

/-- A digit character is not whitespace. -/
theorem nonWS_of_digit (c : Char) (h : c.isDigit = true) : c.isWhitespace = false := by
  by_contra hw
  simp only [Bool.not_eq_false, Char.isWhitespace, Bool.or_eq_true, decide_eq_true_eq] at hw
  rcases hw with ((h1 | h1) | h1) | h1 <;> subst h1 <;> exact absurd h (by decide)

/-- Claim C5 counterexample: the offset string UTC3 does not match the
UTC±H pattern, yet `add_task_exact_time` accepts it (the code only
checks the UTC prefix and that the remainder parses as an int in
[-11, 14]). -/
theorem C5_accepts_nonpattern_offset_cex :
    specOffsetFormat "UTC3" = false ∧
    parseOffsetHours "UTC3" = some 3 ∧
    (add_task_exact_time "m" "2025-06-27T15:00:00" "111" "222" "UTC3" []).isSome = true := by
  decide

/-- Claim C5 (amended): every offset matching the UTC±H pattern with H in
[-11, 14] is accepted, and the boundary cases behave as claimed (UTC+15
and UTC-12 fail, UTC+14 and UTC-11 succeed, also through
`add_task_exact_time`); but acceptance is wider than the pattern: the
prefix check is case-insensitive, the sign is optional and a bare UTC
defaults to zero, so for example UTC3 and UTC are accepted too. -/
theorem C5_offset_acceptance_amended :
    (∀ s, specOffsetFormat s = true → (parseOffsetHours s).isSome = true) ∧
    parseOffsetHours "UTC+15" = none ∧
    parseOffsetHours "UTC-12" = none ∧
    parseOffsetHours "UTC+14" = some 14 ∧
    parseOffsetHours "UTC-11" = some (-11) ∧
    add_task_exact_time "m" "2025-06-27T15:00:00" "111" "222" "UTC+15" [] = none ∧
    add_task_exact_time "m" "2025-06-27T15:00:00" "111" "222" "UTC-12" [] = none ∧
    (add_task_exact_time "m" "2025-06-27T15:00:00" "111" "222" "UTC+14" []).isSome = true ∧
    (add_task_exact_time "m" "2025-06-27T15:00:00" "111" "222" "UTC-11" []).isSome = true ∧
    parseOffsetHours "UTC3" = some 3 ∧
    parseOffsetHours "UTC" = some 0 := by
  refine ⟨?_, by decide, by decide, by decide, by decide, by decide, by decide,
    by decide, by decide, by decide, by decide⟩
  intro s hs
  rcases hds : s.data with _ | ⟨c1, _ | ⟨c2, _ | ⟨c3, _ | ⟨sign, ds⟩⟩⟩⟩ <;>
    simp only [specOffsetFormat, hds, Bool.false_eq_true] at hs
  simp only [Bool.and_eq_true, Bool.or_eq_true, beq_iff_eq, Bool.not_eq_true',
    List.isEmpty_eq_false] at hs
  obtain ⟨⟨⟨⟨⟨⟨hc1, hc2⟩, hc3⟩, hsign⟩, hne⟩, hdig⟩, hval⟩ := hs
  subst hc1; subst hc2; subst hc3
  rcases hdg : digitsToNat ds with _ | n
  · rw [hdg] at hval; exact absurd hval (by simp)
  rw [hdg] at hval
  have hdrop : (sign :: ds).dropWhile Char.isWhitespace = sign :: ds := by
    have : sign.isWhitespace = false := by
      rcases hsign with h1 | h1 <;> subst h1 <;> decide
    simp [List.dropWhile_cons, this]
  obtain ⟨b, bs, hrev⟩ : ∃ b bs, ds.reverse = b :: bs := by
    cases hr : ds.reverse with
    | nil => exact absurd (List.reverse_eq_nil_iff.mp hr) hne
    | cons b bs => exact ⟨b, bs, rfl⟩
  have hbmem : b ∈ ds := by
    have : b ∈ ds.reverse := by rw [hrev]; exact List.mem_cons_self b bs
    exact List.mem_reverse.mp this
  have hbdig : b.isDigit = true := by
    have := List.all_eq_true.mp hdig
    simpa using this b hbmem
  have hdrop2 : ((sign :: ds).reverse).dropWhile Char.isWhitespace = (sign :: ds).reverse := by
    rw [List.reverse_cons, hrev]
    simp [List.dropWhile_cons, nonWS_of_digit b hbdig]
  have hcs : ((((sign :: ds).dropWhile Char.isWhitespace).reverse).dropWhile
      Char.isWhitespace).reverse = sign :: ds := by
    rw [hdrop, hdrop2, List.reverse_reverse]
  have hpy : pyIntChars (sign :: ds) =
      some (if sign = '-' then -(n : Int) else (n : Int)) := by
    unfold pyIntChars
    rw [hcs]
    rcases hsign with h1 | h1 <;> subst h1
    · simp [hdg]
    · simp [hdg]
  have hbound : -11 ≤ (if sign = '-' then -(n : Int) else (n : Int)) ∧
      (if sign = '-' then -(n : Int) else (n : Int)) ≤ 14 := by
    rcases hsign with h1 | h1 <;> subst h1
    · simp only [if_neg (by decide : ¬ ('+' = '-'))]
      simp only [if_neg (by decide : ¬ ('+' == '-') = true)] at hval
      have : n ≤ 14 := of_decide_eq_true hval
      omega
    · simp only [if_pos rfl]
      simp only [if_pos (by decide : ('-' == '-') = true)] at hval
      have : n ≤ 11 := of_decide_eq_true hval
      omega
  unfold parseOffsetHours
  rw [hds]
  simp only [if_pos (by decide : ('U'.toUpper = 'U' ∧ 'T'.toUpper = 'T' ∧ 'C'.toUpper = 'C'))]
  have hne2 : (sign :: ds : List Char) ≠ [] := by simp
  rw [if_neg hne2, hpy]
  have hok : ¬ ((if sign = '-' then -(n : Int) else (n : Int)) < -11 ∨
      14 < (if sign = '-' then -(n : Int) else (n : Int))) := by omega
  simp [hok]

/-- Claim C6: for every parseable time string (naive values taken as
UTC) and every offset the code accepts with value `h` hours, the exact
scheduling tool stores a task whose time is the ISO rendering of the
normalized instant minus `h` hours, appended to the store, while the
relative tool stores the normalized instant unchanged. -/
theorem C6_stored_due_time (m toNum pid s off : String) (tasks : List Task) (p : ParsedDT)
    (dt h : Int)
    (hp : fromisoformat s = some p) (hn : normalizeUTC p = some dt)
    (ho : parseOffsetHours off = some h)
    (hrange : ¬ (dt - h * 3600000000 < minMicros ∨ maxMicros < dt - h * 3600000000)) :
    add_task_exact_time m s toNum pid off tasks =
      some (⟨m, some (isoformat (dt - h * 3600000000)), toNum, pid⟩,
        tasks ++ [⟨m, some (isoformat (dt - h * 3600000000)), toNum, pid⟩]) ∧
    add_task_relative_time m s toNum pid tasks =
      some (⟨m, some (isoformat dt), toNum, pid⟩,
        tasks ++ [⟨m, some (isoformat dt), toNum, pid⟩]) := by
  constructor
  · simp only [add_task_exact_time, hp, hn, ho]
    rw [if_neg hrange]
  · simp only [add_task_relative_time, hp, hn]

/-- Claim C6 witness: the round-trip of the spec: scheduling for
2025-06-27T15:00:00 with offset UTC+3 stores the instant
2025-06-27T12:00:00 UTC, while the relative tool stores
2025-06-27T15:00:00 UTC unchanged; the scheduler reads the stored task
back as exactly three hours before the parsed timestamp. -/
theorem C6_stored_due_time_witness :
    add_task_exact_time "remind" "2025-06-27T15:00:00" "111" "222" "UTC+3" [] =
      some (⟨"remind", some "2025-06-27T12:00:00+00:00", "111", "222"⟩,
        [⟨"remind", some "2025-06-27T12:00:00+00:00", "111", "222"⟩]) ∧
    add_task_relative_time "remind" "2025-06-27T15:00:00" "111" "222" [] =
      some (⟨"remind", some "2025-06-27T15:00:00+00:00", "111", "222"⟩,
        [⟨"remind", some "2025-06-27T15:00:00+00:00", "111", "222"⟩]) ∧
    parse_time ⟨"remind", some "2025-06-27T12:00:00+00:00", "111", "222"⟩ =
      1751036400000000 - 3 * 3600000000 := by
  have h := C6_stored_due_time "remind" "111" "222" "2025-06-27T15:00:00" "UTC+3" []
    ⟨1751036400000000, none⟩ 1751036400000000 3 (by decide) (by decide) (by decide) (by decide)
  refine ⟨?_, ?_, by decide⟩
  · rw [h.1]; decide
  · rw [h.2]; decide

end MWAAI
